import Mathlib

/-!
Shallow embedding of the camera animation controller of supersplat-viewer
(src/cameras/anim-controller.ts and the AnimState class it bundles).

JavaScript numbers are modelled as real numbers.  The two external
collaborators that the spec declares out of scope — the cubic-spline
evaluator and the time-cursor primitive — are carried as abstract function
fields of `AnimState`; the spline evaluator may report non-finite
components, modelled by the `JSNum` wrapper, because `AnimState.update`
inspects finiteness of the sampled components.
-/

set_option maxHeartbeats 1000000

/-- Three-component vector of reals, modelling the playcanvas `Vec3` values
used by the animation controller. -/
@[ext]
structure Vec3 where
  x : ℝ
  y : ℝ
  z : ℝ

/-- Componentwise vector addition, modelling the construction
`new Vec3(a.x + b.x, a.y + b.y, a.z + b.z)` used to add the hover offset. -/
noncomputable def Vec3.add (a b : Vec3) : Vec3 :=
  ⟨a.x + b.x, a.y + b.y, a.z + b.z⟩

/-- Component written by the external spline evaluator: a JavaScript number
is either a finite real or a non-finite value (NaN or an infinity). -/
inductive JSNum where
  | fin : ℝ → JSNum
  | nonfin : JSNum

/-- Models the JavaScript `isFinite` predicate on a sampled component. -/
def JSNum.isFinite : JSNum → Bool
  | fin _ => true
  | nonfin => false

/-- Real value of a finite sampled component (the placeholder 0 on a
non-finite component is never read by the code, which commits a sample only
when every component is finite). -/
noncomputable def JSNum.val : JSNum → ℝ
  | fin x => x
  | nonfin => 0

/-- State of a camera animation track (class `AnimState`).  `splineEval`
models `CubicSpline.evaluate` (a pure function from the evaluation parameter
to the six written components) and `cursorUpdate` models `AnimCursor.update`
(from current cursor value and delta time to the new cursor value); both are
external collaborators kept abstract, per the spec's scope. -/
structure AnimState where
  splineEval : ℝ → Fin 6 → JSNum
  cursorUpdate : ℝ → ℝ → ℝ
  cursorValue : ℝ
  frameRate : ℝ
  keyframes : List ℝ
  position : Vec3
  target : Vec3

/-- Models `getNextKeyframe`: scan the keyframe list front to back for the
first entry above `currentTime * frameRate + 0.1`; wrap to the first
keyframe when none qualifies; return 0 on an empty list.  The result is
converted back to seconds by dividing by the frame rate. -/
noncomputable def AnimState.getNextKeyframe (s : AnimState) (currentTime : ℝ) : ℝ :=
  match s.keyframes.find? (fun k => decide (currentTime * s.frameRate + 0.1 < k)) with
  | some k => k / s.frameRate
  | none =>
    match s.keyframes with
    | [] => 0
    | k :: _ => k / s.frameRate

/-- Last element of a list satisfying the predicate, mirroring the backwards
scan of the keyframe array in `getPrevKeyframe`. -/
def findLast? {α : Type} (p : α → Bool) : List α → Option α
  | [] => none
  | a :: l =>
    match findLast? p l with
    | some b => some b
    | none => if p a then some a else none

/-- Models `getPrevKeyframe`: scan the keyframe list back to front for the
last entry below `currentTime * frameRate - 0.1`; wrap to the last keyframe
when none qualifies; return 0 on an empty list. -/
noncomputable def AnimState.getPrevKeyframe (s : AnimState) (currentTime : ℝ) : ℝ :=
  match findLast? (fun k => decide (k < currentTime * s.frameRate - 0.1)) s.keyframes with
  | some k => k / s.frameRate
  | none =>
    match s.keyframes.getLast? with
    | some k => k / s.frameRate
    | none => 0

/-- Models `result.every(isFinite)` over the six components written by the
spline evaluator. -/
def sampleAllFinite (res : Fin 6 → JSNum) : Bool :=
  (res 0).isFinite && (res 1).isFinite && (res 2).isFinite &&
  (res 3).isFinite && (res 4).isFinite && (res 5).isFinite

/-- Components written by `spline.evaluate(cursor.value * frameRate, result)`
during `AnimState.update s dt` (the cursor has already been advanced). -/
noncomputable def sampledAt (s : AnimState) (dt : ℝ) : Fin 6 → JSNum :=
  s.splineEval (s.cursorUpdate s.cursorValue dt * s.frameRate)

/-- Models `AnimState.update(dt)`: advance the cursor, evaluate the spline at
`cursor.value * frameRate`, and commit components 0-2 as position and 3-5 as
target exactly when all six are finite; otherwise keep the previous pose. -/
noncomputable def AnimState.update (s : AnimState) (dt : ℝ) : AnimState :=
  if sampleAllFinite (sampledAt s dt) then
    { s with
        cursorValue := s.cursorUpdate s.cursorValue dt
        position := ⟨(sampledAt s dt 0).val, (sampledAt s dt 1).val, (sampledAt s dt 2).val⟩
        target := ⟨(sampledAt s dt 3).val, (sampledAt s dt 4).val, (sampledAt s dt 5).val⟩ }
  else
    { s with cursorValue := s.cursorUpdate s.cursorValue dt }

/-- State of the playback controller (class `AnimController`). -/
structure AnimController where
  animState : AnimState
  basePosition : Vec3
  baseTarget : Vec3
  hoverTime : ℝ
  hoverAmplitude : ℝ
  hoverSpeed : ℝ
  isTransitioning : Bool
  transitionProgress : ℝ
  transitionDuration : ℝ
  transitionFromPos : Vec3
  transitionFromTarget : Vec3
  transitionToPos : Vec3
  transitionToTarget : Vec3

/-- Models the `AnimController` constructor: force-sample the track at its
start (`animState.update(0)`), take that pose as the base pose, and take the
declared field initialisers for everything else. -/
noncomputable def AnimController.init (s0 : AnimState) : AnimController :=
  { animState := s0.update 0
    basePosition := (s0.update 0).position
    baseTarget := (s0.update 0).target
    hoverTime := 0
    hoverAmplitude := 0.02
    hoverSpeed := 0.5
    isTransitioning := false
    transitionProgress := 0
    transitionDuration := 0.8
    transitionFromPos := ⟨0, 0, 0⟩
    transitionFromTarget := ⟨0, 0, 0⟩
    transitionToPos := ⟨0, 0, 0⟩
    transitionToTarget := ⟨0, 0, 0⟩ }

/-- Models `easeOutCubic(t) = 1 - Math.pow(1 - t, 3)`. -/
noncomputable def easeOutCubic (t : ℝ) : ℝ := 1 - (1 - t) ^ 3

/-- Models the hover offset `(hoverX, hoverY, hoverZ)` computed identically
in the transitioning and paused branches of `AnimController.update`. -/
noncomputable def hoverOffset (amplitude speed ht : ℝ) : Vec3 :=
  ⟨Real.sin (ht * speed) * amplitude,
   Real.sin (ht * speed * 0.7 + 1.0) * amplitude * 0.5,
   Real.cos (ht * speed * 0.5) * amplitude * 0.3⟩

/-- Models the componentwise lerp `from + (to - from) * t` used for both the
position and the target during a transition. -/
noncomputable def lerpVec (a b : Vec3) (t : ℝ) : Vec3 :=
  ⟨a.x + (b.x - a.x) * t, a.y + (b.y - a.y) * t, a.z + (b.z - a.z) * t⟩

/-- Observable outcome of one `update` call: the new controller state, the
`camera.look` commands issued (in order), and the number of
`inputFrame.read()` calls performed. -/
structure UpdateResult where
  state : AnimController
  looks : List (Vec3 × Vec3)
  reads : Nat

/-- Transitioning branch of `AnimController.update`.  The source first adds
`deltaTime / transitionDuration` to the progress, clamps it to 1 (clearing
`isTransitioning` and committing the base pose) when it reaches 1, then
emits the eased lerp of the transition poses with the hover offset added to
the position; the clamped progress value is inlined into each branch of the
conditional here. -/
noncomputable def transitionStep (c : AnimController) (deltaTime : ℝ) : UpdateResult :=
  if 1 ≤ c.transitionProgress + deltaTime / c.transitionDuration then
    { state :=
        { c with
            transitionProgress := 1
            isTransitioning := false
            basePosition := c.transitionToPos
            baseTarget := c.transitionToTarget
            hoverTime := c.hoverTime + deltaTime }
      looks :=
        [((lerpVec c.transitionFromPos c.transitionToPos (easeOutCubic 1)).add
            (hoverOffset c.hoverAmplitude c.hoverSpeed (c.hoverTime + deltaTime)),
          lerpVec c.transitionFromTarget c.transitionToTarget (easeOutCubic 1))]
      reads := 1 }
  else
    { state :=
        { c with
            transitionProgress := c.transitionProgress + deltaTime / c.transitionDuration
            hoverTime := c.hoverTime + deltaTime }
      looks :=
        [((lerpVec c.transitionFromPos c.transitionToPos
             (easeOutCubic (c.transitionProgress + deltaTime / c.transitionDuration))).add
            (hoverOffset c.hoverAmplitude c.hoverSpeed (c.hoverTime + deltaTime)),
          lerpVec c.transitionFromTarget c.transitionToTarget
            (easeOutCubic (c.transitionProgress + deltaTime / c.transitionDuration)))]
      reads := 1 }

/-- Paused branch of `AnimController.update`: advance the hover clock and
emit the base pose with the hover offset added to the position. -/
noncomputable def pausedStep (c : AnimController) (deltaTime : ℝ) : UpdateResult :=
  { state := { c with hoverTime := c.hoverTime + deltaTime }
    looks :=
      [(c.basePosition.add (hoverOffset c.hoverAmplitude c.hoverSpeed (c.hoverTime + deltaTime)),
        c.baseTarget)]
    reads := 1 }

/-- Playing branch of `AnimController.update`: advance the animation state,
commit its pose as the base pose, and emit it unchanged. -/
noncomputable def playingStep (c : AnimController) (deltaTime : ℝ) : UpdateResult :=
  { state :=
      { c with
          animState := c.animState.update deltaTime
          basePosition := (c.animState.update deltaTime).position
          baseTarget := (c.animState.update deltaTime).target }
    looks := [((c.animState.update deltaTime).position, (c.animState.update deltaTime).target)]
    reads := 1 }

/-- Models `AnimController.update(deltaTime, inputFrame, camera, isPaused)`:
dispatch on the transitioning flag and the pause flag; every branch issues
one `camera.look` and the call ends with one `inputFrame.read()`. -/
noncomputable def AnimController.update (c : AnimController) (deltaTime : ℝ)
    (isPaused : Bool) : UpdateResult :=
  if c.isTransitioning then transitionStep c deltaTime
  else if isPaused then pausedStep c deltaTime
  else playingStep c deltaTime

/-- Models `AnimController.next()`: anchor the transition source at the last
committed base pose, jump the cursor to the next keyframe, force-sample with
`update(0)`, capture the resulting pose as the transition destination, and
enter the transitioning state with progress 0. -/
noncomputable def AnimController.next (c : AnimController) : AnimController :=
  { c with
      animState :=
        AnimState.update
          { c.animState with
              cursorValue := c.animState.getNextKeyframe c.animState.cursorValue } 0
      transitionFromPos := c.basePosition
      transitionFromTarget := c.baseTarget
      transitionToPos :=
        (AnimState.update
          { c.animState with
              cursorValue := c.animState.getNextKeyframe c.animState.cursorValue } 0).position
      transitionToTarget :=
        (AnimState.update
          { c.animState with
              cursorValue := c.animState.getNextKeyframe c.animState.cursorValue } 0).target
      isTransitioning := true
      transitionProgress := 0 }

/-- Models `AnimController.prev()`: as `next`, but jumping the cursor to the
previous keyframe. -/
noncomputable def AnimController.prev (c : AnimController) : AnimController :=
  { c with
      animState :=
        AnimState.update
          { c.animState with
              cursorValue := c.animState.getPrevKeyframe c.animState.cursorValue } 0
      transitionFromPos := c.basePosition
      transitionFromTarget := c.baseTarget
      transitionToPos :=
        (AnimState.update
          { c.animState with
              cursorValue := c.animState.getPrevKeyframe c.animState.cursorValue } 0).position
      transitionToTarget :=
        (AnimState.update
          { c.animState with
              cursorValue := c.animState.getPrevKeyframe c.animState.cursorValue } 0).target
      isTransitioning := true
      transitionProgress := 0 }

/-! Concrete instances used by witnesses and counterexamples. -/

/-- Concrete animation state whose spline always reports the finite sample 1
in every component, with the keyframe layout of the spec's worked scenario
(samples 0, 30, 60 at 30 frames per second). -/
noncomputable def trivialAnim : AnimState :=
  { splineEval := fun _ _ => JSNum.fin 1
    cursorUpdate := fun v d => v + d
    cursorValue := 0
    frameRate := 30
    keyframes := [0, 30, 60]
    position := ⟨0, 0, 0⟩
    target := ⟨0, 0, 0⟩ }

/-- Concrete animation state whose spline reports a non-finite component. -/
noncomputable def nonfinAnim : AnimState :=
  { trivialAnim with
      splineEval := fun _ _ => JSNum.nonfin
      position := ⟨7, 8, 9⟩
      target := ⟨4, 5, 6⟩ }

/-- Concrete controller in the Playing state (not transitioning), with the
source's default field values. -/
noncomputable def playingCtrl : AnimController :=
  { animState := trivialAnim
    basePosition := ⟨0, 0, 0⟩
    baseTarget := ⟨0, 0, 0⟩
    hoverTime := 0
    hoverAmplitude := 0.02
    hoverSpeed := 0.5
    isTransitioning := false
    transitionProgress := 0
    transitionDuration := 0.8
    transitionFromPos := ⟨0, 0, 0⟩
    transitionFromTarget := ⟨0, 0, 0⟩
    transitionToPos := ⟨0, 0, 0⟩
    transitionToTarget := ⟨0, 0, 0⟩ }

/-- Concrete controller in the middle of a transition. -/
noncomputable def transCtrl : AnimController :=
  { playingCtrl with isTransitioning := true }

/-! Claim theorems. -/

/-- C4: every `update` call, in every state, for every delta time and either
pause flag, issues exactly one `camera.look` command and exactly one
`inputFrame.read()`; the emitted pose is a pair of real vectors of the
model, hence finite. -/
theorem update_one_look_one_read (c : AnimController) (dt : ℝ) (p : Bool) :
    (c.update dt p).looks.length = 1 ∧ (c.update dt p).reads = 1 := by
  unfold AnimController.update transitionStep pausedStep playingStep
  rcases hb : c.isTransitioning <;> rcases p <;> simp [hb] <;> split <;> simp

/-- C9: while a transition is in progress, the pause flag has no effect:
`update` from the same state with the same delta time produces an identical
new state, camera command and input drain whether or not the pause flag is
set. -/
theorem update_pause_noninterference (c : AnimController) (dt : ℝ)
    (h : c.isTransitioning = true) :
    c.update dt true = c.update dt false := by
  simp [AnimController.update, h]

/-- Witness for C9 at a concrete mid-transition controller. -/
theorem update_pause_noninterference_witness :
    transCtrl.isTransitioning = true ∧ transCtrl.update 2 true = transCtrl.update 2 false :=
  ⟨rfl, update_pause_noninterference transCtrl 2 rfl⟩

/-- C5: `next` and `prev` are accepted from any controller state (including
mid-transition); they reset the transition progress to 0, raise the
transitioning flag, and anchor the transition source pose at the last
committed base pose — not at any mid-transition interpolated pose. -/
theorem nav_resets_transition_from_base (c : AnimController) :
    ((c.next).transitionProgress = 0 ∧ (c.next).isTransitioning = true
      ∧ (c.next).transitionFromPos = c.basePosition
      ∧ (c.next).transitionFromTarget = c.baseTarget)
    ∧ ((c.prev).transitionProgress = 0 ∧ (c.prev).isTransitioning = true
      ∧ (c.prev).transitionFromPos = c.basePosition
      ∧ (c.prev).transitionFromTarget = c.baseTarget) :=
  ⟨⟨rfl, rfl, rfl, rfl⟩, ⟨rfl, rfl, rfl, rfl⟩⟩

/-- C2 counterexample: in the Playing branch (not transitioning, not paused)
`update` does not advance the hover clock: from hoverTime 0 a call with
deltaTime 1 leaves hoverTime at 0, not 1, refuting the claim that every
update call increases hoverTime by exactly deltaTime in every mode. -/
theorem hoverTime_frozen_while_playing_cex :
    (playingCtrl.update 1 false).state.hoverTime ≠ playingCtrl.hoverTime + 1 := by
  simp [AnimController.update, playingCtrl, playingStep]

/-- C2 amended: the hover clock is never reset — `next` and `prev` leave it
unchanged and `update` never decreases it for nonnegative delta time — and
`update` advances it by exactly deltaTime in the Transitioning and Paused
branches, but leaves it unchanged in the Playing branch. -/
theorem hoverTime_never_reset (c : AnimController) (dt : ℝ) (p : Bool) :
    ((c.update dt p).state.hoverTime =
      if c.isTransitioning || p then c.hoverTime + dt else c.hoverTime)
    ∧ (c.next).hoverTime = c.hoverTime
    ∧ (c.prev).hoverTime = c.hoverTime
    ∧ (0 ≤ dt → c.hoverTime ≤ (c.update dt p).state.hoverTime) := by
  refine ⟨?_, rfl, rfl, ?_⟩
  · unfold AnimController.update transitionStep pausedStep playingStep
    rcases hb : c.isTransitioning <;> rcases p <;> simp [hb]
    · split <;> simp
    · split <;> simp
  · intro hdt
    unfold AnimController.update transitionStep pausedStep playingStep
    rcases hb : c.isTransitioning <;> rcases p <;> simp [hb] <;> try linarith
    · split <;> simp <;> linarith
    · split <;> simp <;> linarith

/-- Witness for C2's amended theorem at a concrete Playing-state call. -/
theorem hoverTime_never_reset_witness :
    (0:ℝ) ≤ 1 ∧ playingCtrl.hoverTime ≤ (playingCtrl.update 1 false).state.hoverTime :=
  ⟨by norm_num, (hoverTime_never_reset playingCtrl 1 false).2.2.2 (by norm_num)⟩

/-- C10: the transition progress lies in the unit interval: it is 0 after
construction and after `next` and `prev`; `update` preserves membership in
the unit interval for nonnegative delta time and positive transition
duration, clamping the progress to 1 and clearing the transitioning flag in
the same call in which the progress reaches 1. -/
theorem transitionProgress_unit_interval (c : AnimController) (s0 : AnimState)
    (dt : ℝ) (p : Bool) :
    (AnimController.init s0).transitionProgress = 0
    ∧ (c.next).transitionProgress = 0
    ∧ (c.prev).transitionProgress = 0
    ∧ (0 ≤ c.transitionProgress → c.transitionProgress ≤ 1 → 0 ≤ dt →
        0 < c.transitionDuration →
        0 ≤ (c.update dt p).state.transitionProgress
          ∧ (c.update dt p).state.transitionProgress ≤ 1)
    ∧ (c.isTransitioning = true →
        1 ≤ c.transitionProgress + dt / c.transitionDuration →
        (c.update dt p).state.transitionProgress = 1
          ∧ (c.update dt p).state.isTransitioning = false) := by
  refine ⟨rfl, rfl, rfl, ?_, ?_⟩
  · intro h0 h1 hdt hdur
    unfold AnimController.update transitionStep pausedStep playingStep
    rcases hb : c.isTransitioning <;> rcases p <;> simp [hb]
    · exact ⟨h0, h1⟩
    · exact ⟨h0, h1⟩
    · by_cases hge : 1 ≤ c.transitionProgress + dt / c.transitionDuration
      · simp [hge]
      · simp [hge]
        have hdiv : 0 ≤ dt / c.transitionDuration := div_nonneg hdt hdur.le
        constructor
        · linarith
        · linarith [lt_of_not_le hge]
    · by_cases hge : 1 ≤ c.transitionProgress + dt / c.transitionDuration
      · simp [hge]
      · simp [hge]
        have hdiv : 0 ≤ dt / c.transitionDuration := div_nonneg hdt hdur.le
        constructor
        · linarith
        · linarith [lt_of_not_le hge]
  · intro hb hge
    simp [AnimController.update, hb, transitionStep, hge]

/-- Witness for C10 at concrete Playing-state and completing-transition
calls. -/
theorem transitionProgress_unit_interval_witness :
    ((0:ℝ) ≤ playingCtrl.transitionProgress ∧ playingCtrl.transitionProgress ≤ 1
      ∧ (0:ℝ) ≤ 1 ∧ 0 < playingCtrl.transitionDuration)
    ∧ (0 ≤ (playingCtrl.update 1 false).state.transitionProgress
        ∧ (playingCtrl.update 1 false).state.transitionProgress ≤ 1)
    ∧ (transCtrl.isTransitioning = true
        ∧ 1 ≤ transCtrl.transitionProgress + 1 / transCtrl.transitionDuration)
    ∧ ((transCtrl.update 1 true).state.transitionProgress = 1
        ∧ (transCtrl.update 1 true).state.isTransitioning = false) := by
  refine ⟨⟨?_, ?_, ?_, ?_⟩, ?_, ⟨rfl, ?_⟩, ?_⟩
  · norm_num [playingCtrl]
  · norm_num [playingCtrl]
  · norm_num
  · norm_num [playingCtrl]
  · exact (transitionProgress_unit_interval playingCtrl trivialAnim 1 false).2.2.2.1
      (by norm_num [playingCtrl]) (by norm_num [playingCtrl]) (by norm_num)
      (by norm_num [playingCtrl])
  · norm_num [transCtrl, playingCtrl]
  · exact (transitionProgress_unit_interval transCtrl trivialAnim 1 true).2.2.2.2
      rfl (by norm_num [transCtrl, playingCtrl])

/-- C3: `AnimState.update` commits the sampled pose (components 0-2 as
position, 3-5 as target) exactly when all six sampled components are finite,
and otherwise leaves position and target unchanged; the call is total, so no
error is raised either way. -/
theorem animState_update_finite_commit (s : AnimState) (dt : ℝ) :
    (sampleAllFinite (sampledAt s dt) = true →
      (s.update dt).position =
          ⟨(sampledAt s dt 0).val, (sampledAt s dt 1).val, (sampledAt s dt 2).val⟩
        ∧ (s.update dt).target =
          ⟨(sampledAt s dt 3).val, (sampledAt s dt 4).val, (sampledAt s dt 5).val⟩)
    ∧ (sampleAllFinite (sampledAt s dt) = false →
      (s.update dt).position = s.position ∧ (s.update dt).target = s.target) := by
  constructor <;> intro h <;> simp [AnimState.update, h]

/-- Witness for C3 at one all-finite sample and one non-finite sample. -/
theorem animState_update_finite_commit_witness :
    (sampleAllFinite (sampledAt trivialAnim 0) = true
      ∧ (trivialAnim.update 0).position = ⟨1, 1, 1⟩
      ∧ (trivialAnim.update 0).target = ⟨1, 1, 1⟩)
    ∧ (sampleAllFinite (sampledAt nonfinAnim 0) = false
      ∧ (nonfinAnim.update 0).position = nonfinAnim.position
      ∧ (nonfinAnim.update 0).target = nonfinAnim.target) :=
  ⟨⟨rfl, (animState_update_finite_commit trivialAnim 0).1 rfl⟩,
   ⟨rfl, (animState_update_finite_commit nonfinAnim 0).2 rfl⟩⟩

/-- Boundary value of the easing function at progress 0. -/
theorem easeOutCubic_zero : easeOutCubic 0 = 0 := by norm_num [easeOutCubic]

/-- Boundary value of the easing function at progress 1. -/
theorem easeOutCubic_one : easeOutCubic 1 = 1 := by norm_num [easeOutCubic]

/-- Interpolation at parameter 0 returns the source exactly. -/
theorem lerpVec_zero (a b : Vec3) : lerpVec a b 0 = a := by
  ext <;> simp [lerpVec]

/-- Interpolation at parameter 1 returns the destination exactly. -/
theorem lerpVec_one (a b : Vec3) : lerpVec a b 1 = b := by
  ext <;> simp [lerpVec]

/-- C1 amended: during a transition the eased interpolation is
boundary-exact — at progress 0 it yields `fromPose` and in the completing
call (progress clamped to 1) it yields `toPose` — and the emitted target is
exactly the interpolated target, while the emitted position additionally
carries the idle-motion hover offset on top of the interpolated position. -/
theorem transition_boundary_exact (c : AnimController) (dt : ℝ) (p : Bool)
    (h : c.isTransitioning = true) :
    (c.transitionProgress + dt / c.transitionDuration = 0 →
      (c.update dt p).looks
        = [(c.transitionFromPos.add
              (hoverOffset c.hoverAmplitude c.hoverSpeed (c.hoverTime + dt)),
            c.transitionFromTarget)])
    ∧ (1 ≤ c.transitionProgress + dt / c.transitionDuration →
      (c.update dt p).looks
        = [(c.transitionToPos.add
              (hoverOffset c.hoverAmplitude c.hoverSpeed (c.hoverTime + dt)),
            c.transitionToTarget)]
        ∧ (c.update dt p).state.basePosition = c.transitionToPos
        ∧ (c.update dt p).state.isTransitioning = false) := by
  constructor
  · intro h0
    have hlt : ¬ (1 ≤ c.transitionProgress + dt / c.transitionDuration) := by
      rw [h0]; norm_num
    rw [AnimController.update, if_pos h, transitionStep, if_neg hlt]
    simp [h0, easeOutCubic_zero, lerpVec_zero]
  · intro h1
    rw [AnimController.update, if_pos h, transitionStep, if_pos h1]
    simp [easeOutCubic_one, lerpVec_one]

/-- Witness for C1's amended theorem at a concrete mid-transition call with
progress 0. -/
theorem transition_boundary_exact_witness :
    (transCtrl.isTransitioning = true
      ∧ transCtrl.transitionProgress + 0 / transCtrl.transitionDuration = 0)
    ∧ (transCtrl.update 0 false).looks
        = [(transCtrl.transitionFromPos.add
              (hoverOffset transCtrl.hoverAmplitude transCtrl.hoverSpeed
                (transCtrl.hoverTime + 0)),
            transCtrl.transitionFromTarget)] :=
  ⟨⟨rfl, by norm_num [transCtrl, playingCtrl]⟩,
   (transition_boundary_exact transCtrl 0 false rfl).1 (by norm_num [transCtrl, playingCtrl])⟩

/-- C1 counterexample: at progress 0 the pose actually emitted to the camera
differs from `fromPose`, because the hover offset is added on top of the
interpolated position (its z component is `cos 0 * 0.02 * 0.3 = 0.006` here,
not 0). -/
theorem transition_pose_hover_cex :
    (transCtrl.update 0 false).looks
      ≠ [(transCtrl.transitionFromPos, transCtrl.transitionFromTarget)] := by
  intro heq
  have hz := congrArg (fun l : List (Vec3 × Vec3) => (l.map (fun q => q.1.z)).sum) heq
  simp only [AnimController.update, transitionStep, transCtrl, playingCtrl] at hz
  norm_num [lerpVec, easeOutCubic, hoverOffset, Vec3.add, Real.cos_zero] at hz

/-- Sine values lie in the unit interval in absolute value. -/
theorem abs_sin_le_one (x : ℝ) : |Real.sin x| ≤ 1 :=
  abs_le.mpr ⟨Real.neg_one_le_sin x, Real.sin_le_one x⟩

/-- Cosine values lie in the unit interval in absolute value. -/
theorem abs_cos_le_one (x : ℝ) : |Real.cos x| ≤ 1 :=
  abs_le.mpr ⟨Real.neg_one_le_cos x, Real.cos_le_one x⟩

/-- C8: with the configured amplitude 0.02, each component of the hover
offset is bounded by its amplitude (x by 0.02, y by 0.5 × 0.02, z by
0.3 × 0.02), the Euclidean magnitude of the offset is bounded by the sum of
the three amplitudes, and the offset added by the paused branch of `update`
is purely the function `hoverOffset` of the advanced hover clock and the
fixed amplitude and speed constants. -/
theorem hover_overlay_bounded (c : AnimController) (dt ht : ℝ)
    (hA : c.hoverAmplitude = 0.02) :
    (|(hoverOffset c.hoverAmplitude c.hoverSpeed ht).x| ≤ 0.02
      ∧ |(hoverOffset c.hoverAmplitude c.hoverSpeed ht).y| ≤ 0.5 * 0.02
      ∧ |(hoverOffset c.hoverAmplitude c.hoverSpeed ht).z| ≤ 0.3 * 0.02)
    ∧ Real.sqrt ((hoverOffset c.hoverAmplitude c.hoverSpeed ht).x ^ 2
        + (hoverOffset c.hoverAmplitude c.hoverSpeed ht).y ^ 2
        + (hoverOffset c.hoverAmplitude c.hoverSpeed ht).z ^ 2)
      ≤ 0.02 + 0.5 * 0.02 + 0.3 * 0.02
    ∧ (c.isTransitioning = false →
        (c.update dt true).looks
          = [(c.basePosition.add (hoverOffset c.hoverAmplitude c.hoverSpeed (c.hoverTime + dt)),
              c.baseTarget)]) := by
  have hsx := abs_sin_le_one (ht * c.hoverSpeed)
  have hsy := abs_sin_le_one (ht * c.hoverSpeed * 0.7 + 1.0)
  have hcz := abs_cos_le_one (ht * c.hoverSpeed * 0.5)
  have hsx' := abs_le.mp hsx
  have hsy' := abs_le.mp hsy
  have hcz' := abs_le.mp hcz
  have hx : |(hoverOffset c.hoverAmplitude c.hoverSpeed ht).x| ≤ 0.02 := by
    rw [hA]
    simp only [hoverOffset]
    rw [abs_le]
    constructor <;> nlinarith [hsx'.1, hsx'.2]
  have hy : |(hoverOffset c.hoverAmplitude c.hoverSpeed ht).y| ≤ 0.5 * 0.02 := by
    rw [hA]
    simp only [hoverOffset]
    rw [abs_le]
    constructor <;> nlinarith [hsy'.1, hsy'.2]
  have hz : |(hoverOffset c.hoverAmplitude c.hoverSpeed ht).z| ≤ 0.3 * 0.02 := by
    rw [hA]
    simp only [hoverOffset]
    rw [abs_le]
    constructor <;> nlinarith [hcz'.1, hcz'.2]
  refine ⟨⟨hx, hy, hz⟩, ?_, ?_⟩
  · have hx2 : (hoverOffset c.hoverAmplitude c.hoverSpeed ht).x ^ 2 ≤ 0.02 ^ 2 := by
      have := abs_le.mp hx
      nlinarith [this.1, this.2]
    have hy2 : (hoverOffset c.hoverAmplitude c.hoverSpeed ht).y ^ 2 ≤ (0.5 * 0.02) ^ 2 := by
      have := abs_le.mp hy
      nlinarith [this.1, this.2]
    have hz2 : (hoverOffset c.hoverAmplitude c.hoverSpeed ht).z ^ 2 ≤ (0.3 * 0.02) ^ 2 := by
      have := abs_le.mp hz
      nlinarith [this.1, this.2]
    have hsum : (hoverOffset c.hoverAmplitude c.hoverSpeed ht).x ^ 2
        + (hoverOffset c.hoverAmplitude c.hoverSpeed ht).y ^ 2
        + (hoverOffset c.hoverAmplitude c.hoverSpeed ht).z ^ 2
        ≤ (0.02 + 0.5 * 0.02 + 0.3 * 0.02) ^ 2 := by nlinarith
    calc Real.sqrt ((hoverOffset c.hoverAmplitude c.hoverSpeed ht).x ^ 2
          + (hoverOffset c.hoverAmplitude c.hoverSpeed ht).y ^ 2
          + (hoverOffset c.hoverAmplitude c.hoverSpeed ht).z ^ 2)
        ≤ Real.sqrt ((0.02 + 0.5 * 0.02 + 0.3 * 0.02) ^ 2) := Real.sqrt_le_sqrt hsum
      _ = 0.02 + 0.5 * 0.02 + 0.3 * 0.02 := Real.sqrt_sq (by norm_num)
  · intro hb
    simp [AnimController.update, hb, pausedStep]

/-- Witness for C8 at the default controller constants and hover clock 0. -/
theorem hover_overlay_bounded_witness :
    playingCtrl.hoverAmplitude = 0.02
    ∧ Real.sqrt ((hoverOffset playingCtrl.hoverAmplitude playingCtrl.hoverSpeed 0).x ^ 2
        + (hoverOffset playingCtrl.hoverAmplitude playingCtrl.hoverSpeed 0).y ^ 2
        + (hoverOffset playingCtrl.hoverAmplitude playingCtrl.hoverSpeed 0).z ^ 2)
      ≤ 0.02 + 0.5 * 0.02 + 0.3 * 0.02 :=
  ⟨rfl, (hover_overlay_bounded playingCtrl 1 0 rfl).2.1⟩

/-- A successful forward scan returns a member satisfying the predicate. -/
theorem find?_mem_true {p : ℝ → Bool} {l : List ℝ} {a : ℝ}
    (h : l.find? p = some a) : a ∈ l ∧ p a = true :=
  ⟨List.mem_of_find?_eq_some h, List.find?_some h⟩

/-- On a list sorted by ≤, the forward scan returns a least element among
those satisfying the predicate. -/
theorem find?_min_of_sorted {p : ℝ → Bool} {l : List ℝ} {a : ℝ}
    (hs : l.Sorted (· ≤ ·)) (h : l.find? p = some a) :
    ∀ b ∈ l, p b = true → a ≤ b := by
  induction l with
  | nil => simp at h
  | cons x xs ih =>
    rw [List.sorted_cons] at hs
    by_cases hx : p x
    · rw [List.find?_cons_of_pos _ hx] at h
      cases h
      intro b hb _
      rcases List.mem_cons.mp hb with rfl | hbxs
      · exact le_refl _
      · exact hs.1 b hbxs
    · rw [List.find?_cons_of_neg _ hx] at h
      intro b hb hpb
      rcases List.mem_cons.mp hb with rfl | hbxs
      · exact absurd hpb hx
      · exact ih hs.2 h b hbxs hpb

/-- Unfolding equation for the backwards scan on a nonempty list. -/
theorem findLast?_cons {α : Type} (p : α → Bool) (x : α) (xs : List α) :
    findLast? p (x :: xs) =
      match findLast? p xs with
      | some b => some b
      | none => if p x then some x else none := rfl

/-- A backwards scan that finds nothing is justified: no element satisfies
the predicate. -/
theorem findLast?_none_all {α : Type} {p : α → Bool} {l : List α}
    (h : findLast? p l = none) : ∀ b ∈ l, ¬ p b = true := by
  induction l with
  | nil => simp
  | cons x xs ih =>
    rw [findLast?_cons] at h
    rcases hxs : findLast? p xs with _ | y
    · rw [hxs] at h
      by_cases hx : p x
      · rw [if_pos hx] at h
        simp at h
      · intro b hb
        rcases List.mem_cons.mp hb with rfl | hbxs
        · exact hx
        · exact ih hxs b hbxs
    · rw [hxs] at h
      simp at h

/-- If no element satisfies the predicate, the backwards scan finds
nothing. -/
theorem findLast?_eq_none_of_all {α : Type} {p : α → Bool} {l : List α}
    (h : ∀ b ∈ l, ¬ p b = true) : findLast? p l = none := by
  induction l with
  | nil => rfl
  | cons x xs ih =>
    rw [findLast?_cons]
    rw [ih (fun b hb => h b (List.mem_cons_of_mem x hb))]
    rw [if_neg (h x (List.mem_cons_self x xs))]

/-- A successful backwards scan returns a member satisfying the
predicate. -/
theorem findLast?_mem_true {α : Type} {p : α → Bool} {l : List α} {a : α}
    (h : findLast? p l = some a) : a ∈ l ∧ p a = true := by
  induction l with
  | nil => simp [findLast?] at h
  | cons x xs ih =>
    rw [findLast?_cons] at h
    rcases hxs : findLast? p xs with _ | y
    · rw [hxs] at h
      by_cases hx : p x
      · rw [if_pos hx] at h
        obtain rfl : x = a := Option.some.inj h
        exact ⟨List.mem_cons_self x xs, hx⟩
      · rw [if_neg hx] at h
        simp at h
    · rw [hxs] at h
      obtain rfl : y = a := Option.some.inj h
      obtain ⟨hmem, hp⟩ := ih hxs
      exact ⟨List.mem_cons_of_mem x hmem, hp⟩

/-- On a list sorted by ≤, the backwards scan returns a greatest element
among those satisfying the predicate. -/
theorem findLast?_max_of_sorted {p : ℝ → Bool} {l : List ℝ} {a : ℝ}
    (hs : l.Sorted (· ≤ ·)) (h : findLast? p l = some a) :
    ∀ b ∈ l, p b = true → b ≤ a := by
  induction l with
  | nil => simp [findLast?] at h
  | cons x xs ih =>
    rw [List.sorted_cons] at hs
    rw [findLast?_cons] at h
    rcases hxs : findLast? p xs with _ | y
    · rw [hxs] at h
      by_cases hx : p x
      · rw [if_pos hx] at h
        cases h
        intro b hb hpb
        rcases List.mem_cons.mp hb with rfl | hbxs
        · exact le_refl _
        · exact absurd hpb (findLast?_none_all hxs b hbxs)
      · rw [if_neg hx] at h
        simp at h
    · rw [hxs] at h
      obtain rfl : y = a := Option.some.inj h
      intro b hb hpb
      rcases List.mem_cons.mp hb with rfl | hbxs
      · exact hs.1 y (findLast?_mem_true hxs).1
      · exact ih hs.2 hxs b hbxs hpb

/-- On a list sorted by ≤, the head is a lower bound. -/
theorem head?_min_of_sorted {l : List ℝ} {a : ℝ} (hs : l.Sorted (· ≤ ·))
    (h : l.head? = some a) : ∀ b ∈ l, a ≤ b := by
  cases l with
  | nil => simp at h
  | cons x xs =>
    rw [List.head?_cons] at h
    cases h
    rw [List.sorted_cons] at hs
    intro b hb
    rcases List.mem_cons.mp hb with rfl | hbxs
    · exact le_refl _
    · exact hs.1 b hbxs

/-- On a list sorted by ≤, the last element is an upper bound. -/
theorem getLast?_max_of_sorted {l : List ℝ} {a : ℝ} (hs : l.Sorted (· ≤ ·))
    (h : l.getLast? = some a) : ∀ b ∈ l, b ≤ a := by
  induction l with
  | nil => simp at h
  | cons x xs ih =>
    cases xs with
    | nil =>
      simp at h
      subst h
      intro b hb
      simp at hb
      subst hb
      exact le_refl _
    | cons y ys =>
      rw [List.getLast?_cons_cons] at h
      rw [List.sorted_cons] at hs
      intro b hb
      rcases List.mem_cons.mp hb with rfl | hbys
      · exact hs.1 a (List.mem_of_getLast?_eq_some h)
      · exact ih hs.2 h b hbys

/-- Concrete animation state with no keyframes. -/
noncomputable def emptyAnim : AnimState :=
  { trivialAnim with keyframes := [] }

/-- C6: keyframe navigation.  With a sorted keyframe list, `getNextKeyframe`
returns (in seconds) the least keyframe whose sample index exceeds
`t * frameRate + 0.1` when one exists and wraps to the first keyframe when
none does; `getPrevKeyframe` returns the greatest keyframe whose sample index
is below `t * frameRate - 0.1` when one exists and wraps to the last keyframe
when none does; on an empty keyframe list both return 0. -/
theorem keyframe_navigation (s : AnimState) (t : ℝ)
    (hs : s.keyframes.Sorted (· ≤ ·)) :
    (s.keyframes = [] → s.getNextKeyframe t = 0 ∧ s.getPrevKeyframe t = 0)
    ∧ ((∃ k ∈ s.keyframes, t * s.frameRate + 0.1 < k) →
        ∃ k ∈ s.keyframes, t * s.frameRate + 0.1 < k
          ∧ s.getNextKeyframe t = k / s.frameRate
          ∧ ∀ b ∈ s.keyframes, t * s.frameRate + 0.1 < b → k ≤ b)
    ∧ ((∀ k ∈ s.keyframes, ¬ (t * s.frameRate + 0.1 < k)) → s.keyframes ≠ [] →
        ∃ k, s.keyframes.head? = some k ∧ s.getNextKeyframe t = k / s.frameRate)
    ∧ ((∃ k ∈ s.keyframes, k < t * s.frameRate - 0.1) →
        ∃ k ∈ s.keyframes, k < t * s.frameRate - 0.1
          ∧ s.getPrevKeyframe t = k / s.frameRate
          ∧ ∀ b ∈ s.keyframes, b < t * s.frameRate - 0.1 → b ≤ k)
    ∧ ((∀ k ∈ s.keyframes, ¬ (k < t * s.frameRate - 0.1)) → s.keyframes ≠ [] →
        ∃ k, s.keyframes.getLast? = some k ∧ s.getPrevKeyframe t = k / s.frameRate) := by
  refine ⟨?_, ?_, ?_, ?_, ?_⟩
  · intro he
    constructor
    · simp only [AnimState.getNextKeyframe, he, List.find?_nil]
    · rw [AnimState.getPrevKeyframe, he]
      rfl
  · rintro ⟨k0, hk0mem, hk0⟩
    have hsome : (s.keyframes.find?
        (fun k => decide (t * s.frameRate + 0.1 < k))).isSome :=
      List.find?_isSome.mpr ⟨k0, hk0mem, by simpa using hk0⟩
    obtain ⟨a, ha⟩ := Option.isSome_iff_exists.mp hsome
    refine ⟨a, List.mem_of_find?_eq_some ha, by simpa using List.find?_some ha, ?_, ?_⟩
    · simp only [AnimState.getNextKeyframe, ha]
    · intro b hb hpb
      exact find?_min_of_sorted hs ha b hb (by simpa using hpb)
  · intro hall hne
    have hnone : s.keyframes.find?
        (fun k => decide (t * s.frameRate + 0.1 < k)) = none :=
      List.find?_eq_none.mpr (fun x hx => by simpa using hall x hx)
    rcases hl : s.keyframes with _ | ⟨x, xs⟩
    · exact absurd hl hne
    · rw [hl] at hnone
      refine ⟨x, rfl, ?_⟩
      simp only [AnimState.getNextKeyframe, hl, hnone]
  · rintro ⟨k0, hk0mem, hk0⟩
    rcases hfl : findLast? (fun k => decide (k < t * s.frameRate - 0.1)) s.keyframes
      with _ | a
    · exact absurd (by simpa using hk0)
        (by simpa using findLast?_none_all hfl k0 hk0mem)
    · refine ⟨a, (findLast?_mem_true hfl).1, by simpa using (findLast?_mem_true hfl).2, ?_, ?_⟩
      · simp only [AnimState.getPrevKeyframe, hfl]
      · intro b hb hpb
        exact findLast?_max_of_sorted hs hfl b hb (by simpa using hpb)
  · intro hall hne
    have hnone : findLast? (fun k => decide (k < t * s.frameRate - 0.1)) s.keyframes = none :=
      findLast?_eq_none_of_all (fun b hb => by simpa using hall b hb)
    rcases hg : s.keyframes.getLast? with _ | g
    · rw [List.getLast?_eq_none_iff] at hg
      exact absurd hg hne
    · refine ⟨g, rfl, ?_⟩
      simp only [AnimState.getPrevKeyframe, hnone, hg]

/-- Witness for C6 at the spec's worked scenario (keyframes at samples
0, 30, 60 with frame rate 30): at t = 0 the next keyframe is sample 30, that
is 1.0 s, and on an empty keyframe list both lookups return 0. -/
theorem keyframe_navigation_witness :
    (emptyAnim.keyframes = []
      ∧ emptyAnim.getNextKeyframe 5 = 0 ∧ emptyAnim.getPrevKeyframe 5 = 0)
    ∧ ((∃ k ∈ trivialAnim.keyframes, (0:ℝ) * trivialAnim.frameRate + 0.1 < k)
      ∧ ∃ k ∈ trivialAnim.keyframes, (0:ℝ) * trivialAnim.frameRate + 0.1 < k
          ∧ trivialAnim.getNextKeyframe 0 = k / trivialAnim.frameRate
          ∧ ∀ b ∈ trivialAnim.keyframes,
              (0:ℝ) * trivialAnim.frameRate + 0.1 < b → k ≤ b) := by
  constructor
  · refine ⟨rfl, ?_⟩
    exact (keyframe_navigation emptyAnim 5 (by simp [emptyAnim, trivialAnim])).1 rfl
  · have hs : trivialAnim.keyframes.Sorted (· ≤ ·) := by
      norm_num [trivialAnim, List.sorted_cons]
    have hex : ∃ k ∈ trivialAnim.keyframes, (0:ℝ) * trivialAnim.frameRate + 0.1 < k := by
      refine ⟨30, by norm_num [trivialAnim], by norm_num [trivialAnim]⟩
    exact ⟨hex, (keyframe_navigation trivialAnim 0 hs).2.1 hex⟩

/-- C7: round-trip adjacency of the keyframe navigation pair.  With a sorted
keyframe list and a positive frame rate, for any time strictly between two
adjacent keyframes, `getPrevKeyframe (getNextKeyframe t)` returns a keyframe
time that is at most `t` plus the epsilon of 0.1 sample units converted to
seconds. -/
theorem keyframe_roundtrip (s : AnimState) (t : ℝ)
    (hs : s.keyframes.Sorted (· ≤ ·)) (hfr : 0 < s.frameRate)
    (hbetween : ∃ i, ∃ h1 : i + 1 < s.keyframes.length,
        s.keyframes.get ⟨i, Nat.lt_of_succ_lt h1⟩ / s.frameRate < t
          ∧ t < s.keyframes.get ⟨i + 1, h1⟩ / s.frameRate) :
    ∃ k ∈ s.keyframes,
      s.getPrevKeyframe (s.getNextKeyframe t) = k / s.frameRate
        ∧ k / s.frameRate ≤ t + 0.1 / s.frameRate := by
  obtain ⟨i, h1, hlo, _⟩ := hbetween
  have hkmem : s.keyframes.get ⟨i, Nat.lt_of_succ_lt h1⟩ ∈ s.keyframes :=
    List.get_mem _ _ _
  have hklt : s.keyframes.get ⟨i, Nat.lt_of_succ_lt h1⟩ < t * s.frameRate :=
    (div_lt_iff₀ hfr).mp hlo
  have hconv : (t + 0.1 / s.frameRate) * s.frameRate = t * s.frameRate + 0.1 := by
    field_simp
  rcases hfind : s.keyframes.find? (fun k => decide (t * s.frameRate + 0.1 < k))
    with _ | m
  · -- no keyframe above the epsilon threshold: next wraps to the head
    have hall : ∀ b ∈ s.keyframes, ¬ (t * s.frameRate + 0.1 < b) := by
      intro b hb
      simpa using List.find?_eq_none.mp hfind b hb
    rcases hl : s.keyframes with _ | ⟨x, xs⟩
    · exfalso
      have hlen : s.keyframes.length = 0 := by rw [hl]; rfl
      omega
    · rw [← hl]
      rw [hl] at hfind
      have hnext : s.getNextKeyframe t = x / s.frameRate := by
        simp only [AnimState.getNextKeyframe, hl, hfind]
      have hx2 : x / s.frameRate * s.frameRate = x :=
        div_mul_cancel₀ x (ne_of_gt hfr)
      have hminhead : ∀ b ∈ s.keyframes, x ≤ b :=
        head?_min_of_sorted hs (by rw [hl]; rfl)
      have hnoprev : findLast?
          (fun k => decide (k < x / s.frameRate * s.frameRate - 0.1)) s.keyframes
          = none := by
        apply findLast?_eq_none_of_all
        intro b hb
        simp only [decide_eq_true_eq, not_lt]
        rw [hx2]
        have := hminhead b hb
        linarith
      rcases hg : s.keyframes.getLast? with _ | g
      · rw [List.getLast?_eq_none_iff] at hg
        rw [hg] at hl
        simp at hl
      · have hgmem : g ∈ s.keyframes := List.mem_of_getLast?_eq_some hg
        have hprev : s.getPrevKeyframe (x / s.frameRate) = g / s.frameRate := by
          simp only [AnimState.getPrevKeyframe, hnoprev, hg]
        refine ⟨g, hgmem, ?_, ?_⟩
        · rw [hnext, hprev]
        · rw [div_le_iff₀ hfr, hconv]
          have := hall g hgmem
          linarith [not_lt.mp this]
  · -- next returns the least keyframe above the epsilon threshold
    have hmmem : m ∈ s.keyframes := List.mem_of_find?_eq_some hfind
    have hmgt : t * s.frameRate + 0.1 < m := by
      simpa using List.find?_some hfind
    have hmin : ∀ b ∈ s.keyframes, t * s.frameRate + 0.1 < b → m ≤ b := by
      intro b hb hpb
      exact find?_min_of_sorted hs hfind b hb (by simpa using hpb)
    have hnext : s.getNextKeyframe t = m / s.frameRate := by
      simp only [AnimState.getNextKeyframe, hfind]
    have hm2 : m / s.frameRate * s.frameRate = m :=
      div_mul_cancel₀ m (ne_of_gt hfr)
    have hklo_lt : s.keyframes.get ⟨i, Nat.lt_of_succ_lt h1⟩
        < m / s.frameRate * s.frameRate - 0.1 := by
      rw [hm2]
      linarith
    rcases hfl : findLast?
        (fun k => decide (k < m / s.frameRate * s.frameRate - 0.1)) s.keyframes
      with _ | q
    · exact absurd (decide_eq_true hklo_lt)
        (findLast?_none_all hfl _ hkmem)
    · have hqmem := (findLast?_mem_true hfl).1
      have hq : q < m / s.frameRate * s.frameRate - 0.1 := by
        simpa using (findLast?_mem_true hfl).2
      rw [hm2] at hq
      have hqle : q ≤ t * s.frameRate + 0.1 := by
        by_contra hgt
        push_neg at hgt
        have := hmin q hqmem hgt
        linarith
      have hprev : s.getPrevKeyframe (m / s.frameRate) = q / s.frameRate := by
        simp only [AnimState.getPrevKeyframe, hfl]
      refine ⟨q, hqmem, ?_, ?_⟩
      · rw [hnext, hprev]
      · rw [div_le_iff₀ hfr, hconv]
        exact hqle

/-- Witness for C7 at the spec's worked keyframe layout, with t = 0.5 s
strictly between the keyframes at 0 s and 1 s. -/
theorem keyframe_roundtrip_witness :
    ∃ k ∈ trivialAnim.keyframes,
      trivialAnim.getPrevKeyframe (trivialAnim.getNextKeyframe 0.5)
          = k / trivialAnim.frameRate
        ∧ k / trivialAnim.frameRate ≤ 0.5 + 0.1 / trivialAnim.frameRate := by
  apply keyframe_roundtrip trivialAnim 0.5
  · norm_num [trivialAnim, List.sorted_cons]
  · norm_num [trivialAnim]
  · refine ⟨0, by norm_num [trivialAnim], ?_, ?_⟩ <;>
      norm_num [trivialAnim]
